import Mathlib

/-!
Verification of the `@bymeisam/use` hook library: a shallow embedding of the
dual-mode toggle cell (`useToggle`), the focus tracker (`useFocus`), the
persistent-storage setter (`useLocalStorage`), and the debounced value cell
(`useDebounce`), together with proofs of the specified properties.
-/

namespace BymeisamUse

/-! ## JavaScript values

The toggle hook branches on `typeof defaultValue === "boolean"` and on
`alternateValue === undefined`, so the embedding needs a small universe of
JavaScript runtime values with a `typeof`-test and an `undefined` element.
Calling `useToggle` with a single argument leaves `alternateValue` equal to
`undefined`, which is how the source detects the single-argument mode. -/

inductive JSVal where
  | bool : Bool → JSVal
  | str : String → JSVal
  | num : Int → JSVal
  | undef : JSVal
deriving DecidableEq

/-- `typeof v === "boolean"`. -/
def JSVal.typeofBoolean : JSVal → Bool
  | JSVal.bool _ => true
  | _ => false

/-- JavaScript logical negation `!v` (boolean result of the negated
truthiness); the source only applies it to values that passed the
`typeof v === "boolean"` test, where it is plain boolean negation. -/
def JSVal.jsNot : JSVal → JSVal
  | JSVal.bool b => JSVal.bool (!b)
  | JSVal.str s => JSVal.bool (decide (s = ""))
  | JSVal.num n => JSVal.bool (decide (n = 0))
  | JSVal.undef => JSVal.bool true

/-! ## The dual-mode toggle cell (`useToggle`)

Embeds the reset-capable three-tuple draft of the hook:
construction validates the arguments, derives the alternate value for a
single boolean argument, and initialises the internal boolean selector
`state` to `true`; `value` is `state ? defaultValue : alternateValue`;
`toggle` flips `state`; `reset` sets `state` back to `true`.  A `throw` at
construction is embedded as `Except.error` carrying the thrown message. -/

structure ToggleCell where
  defaultValue : JSVal
  alternateValue : JSVal
  state : Bool
deriving DecidableEq

/-- `useToggle(defaultValue, alternateValue?)`; calling with a single
argument corresponds to `alternateValue = JSVal.undef`. -/
def useToggle (defaultValue alternateValue : JSVal) : Except String ToggleCell :=
  let alternateValue :=
    if alternateValue = JSVal.undef ∧ defaultValue.typeofBoolean = true then
      defaultValue.jsNot
    else alternateValue
  if alternateValue = JSVal.undef then
    Except.error "useToggle requires two arguments for non-boolean values"
  else
    Except.ok { defaultValue := defaultValue, alternateValue := alternateValue, state := true }

/-- `const value = state ? defaultValue : alternateValue`. -/
def ToggleCell.value (c : ToggleCell) : JSVal :=
  if c.state then c.defaultValue else c.alternateValue

/-- `toggle`: `setState((prev) => !prev)`. -/
def ToggleCell.toggle (c : ToggleCell) : ToggleCell :=
  { c with state := !c.state }

/-- `reset`: `setState(true)`. -/
def ToggleCell.reset (c : ToggleCell) : ToggleCell :=
  { c with state := true }

/-- One user-visible mutation of a toggle cell. -/
inductive ToggleOp where
  | tog : ToggleOp
  | res : ToggleOp
deriving DecidableEq

/-- Apply a sequence of `toggle`/`reset` calls, left to right. -/
def ToggleCell.applyOps (c : ToggleCell) : List ToggleOp → ToggleCell
  | [] => c
  | ToggleOp.tog :: rest => c.toggle.applyOps rest
  | ToggleOp.res :: rest => c.reset.applyOps rest

/-- The two constant fields of a toggle cell survive every operation. -/
theorem ToggleCell.applyOps_fields (c : ToggleCell) (ops : List ToggleOp) :
    (c.applyOps ops).defaultValue = c.defaultValue ∧
    (c.applyOps ops).alternateValue = c.alternateValue := by
  induction ops generalizing c with
  | nil => exact ⟨rfl, rfl⟩
  | cons op rest ih =>
    cases op
    · exact ih c.toggle
    · exact ih c.reset

/-- Successful construction yields the selector in its initial `true` state
with the requested primary value. -/
theorem useToggle_ok_shape (d a : JSVal) (c : ToggleCell)
    (h : useToggle d a = Except.ok c) :
    c.state = true ∧ c.defaultValue = d := by
  unfold useToggle at h
  by_cases hcond : (if a = JSVal.undef ∧ d.typeofBoolean = true then d.jsNot else a) = JSVal.undef
  · rw [if_pos hcond] at h
    exact absurd h (by simp)
  · rw [if_neg hcond] at h
    cases h
    exact ⟨rfl, rfl⟩

/-- C4: constructing a toggle cell with a single non-boolean argument fails
synchronously at construction with the invalid-arguments error; the error is
returned to the caller, not deferred or swallowed. -/
theorem useToggle_single_nonbool_fails (x : JSVal) (h : x.typeofBoolean = false) :
    useToggle x JSVal.undef =
      Except.error "useToggle requires two arguments for non-boolean values" := by
  unfold useToggle
  have h1 : ¬(JSVal.undef = JSVal.undef ∧ x.typeofBoolean = true) := by simp [h]
  rw [if_neg h1, if_pos rfl]

/-- Witness for C4 at the concrete input `'x'` from the spec's boundary case. -/
theorem useToggle_single_nonbool_fails_witness :
    (JSVal.str "x").typeofBoolean = false ∧
      useToggle (JSVal.str "x") JSVal.undef =
        Except.error "useToggle requires two arguments for non-boolean values" :=
  ⟨by decide, useToggle_single_nonbool_fails (JSVal.str "x") (by decide)⟩

/-- C5: constructing with a single boolean argument `b` never fails and
derives the alternate value as the logical negation of `b`; in particular
`create(true)` yields a cell whose two sides are `true` and `false`. -/
theorem useToggle_single_bool_derives_negation (b : Bool) :
    useToggle (JSVal.bool b) JSVal.undef =
      Except.ok { defaultValue := JSVal.bool b, alternateValue := JSVal.bool (!b),
                  state := true } := by
  cases b <;> rfl

/-- C6: whenever construction succeeds (in either argument mode), the
initially exposed `value` is the first constructor argument. -/
theorem useToggle_initial_value (d a : JSVal) (c : ToggleCell)
    (h : useToggle d a = Except.ok c) :
    c.value = d := by
  obtain ⟨hs, hd⟩ := useToggle_ok_shape d a c h
  rw [ToggleCell.value, hs, if_pos rfl, hd]

/-- Witness for C6 at the spec's `create('light','dark')` scenario. -/
theorem useToggle_initial_value_witness :
    useToggle (JSVal.str "light") (JSVal.str "dark") =
        Except.ok { defaultValue := JSVal.str "light", alternateValue := JSVal.str "dark",
                    state := true } ∧
      ToggleCell.value { defaultValue := JSVal.str "light", alternateValue := JSVal.str "dark",
                         state := true } = JSVal.str "light" :=
  ⟨by rfl, useToggle_initial_value (JSVal.str "light") (JSVal.str "dark") _ (by rfl)⟩

/-- C7: `toggle` composed with itself is the identity on the cell's state, so
two successive `toggle()` calls restore the pre-toggle `value()`. -/
theorem toggle_toggle_id (c : ToggleCell) :
    c.toggle.toggle = c ∧ c.toggle.toggle.value = c.value := by
  have h : c.toggle.toggle = c := by
    simp [ToggleCell.toggle]
  exact ⟨h, by rw [h]⟩

/-- C8: from any state reachable by `toggle`/`reset` calls from a freshly
constructed cell, `reset` restores the construction-time state, and `reset`
is idempotent. -/
theorem reset_restores_initial (d a : JSVal) (c0 : ToggleCell)
    (h : useToggle d a = Except.ok c0) (ops : List ToggleOp) :
    (c0.applyOps ops).reset = c0 ∧
      (c0.applyOps ops).reset.reset = (c0.applyOps ops).reset := by
  obtain ⟨hs, _⟩ := useToggle_ok_shape d a c0 h
  obtain ⟨hd, ha⟩ := ToggleCell.applyOps_fields c0 ops
  constructor
  · show ({ (c0.applyOps ops) with state := true } : ToggleCell) = c0
    cases c0
    simp only [ToggleCell.mk.injEq]
    exact ⟨hd, ha, hs.symm⟩
  · rfl

/-- Witness for C8: a `create(true)` cell taken through a toggle before the
reset. -/
theorem reset_restores_initial_witness :
    (ToggleCell.applyOps
          { defaultValue := JSVal.bool true, alternateValue := JSVal.bool false, state := true }
          [ToggleOp.tog]).reset =
      { defaultValue := JSVal.bool true, alternateValue := JSVal.bool false, state := true } :=
  (reset_restores_initial (JSVal.bool true) JSVal.undef _ (by rfl) [ToggleOp.tog]).1

/-! ## The focus tracker (`useFocus`)

Elements are identified by number; the DOM is abstracted to its
`document.activeElement`.  The hook holds a ref (possibly unattached, i.e.
`none`) and an `isFocused` flag.  `focus`/`blur` call the element's methods
only under the `if (ref.current)` guard; the render effect sets `isFocused`
to `false` when no element is attached, otherwise syncs it with
`document.activeElement` and performs the optional auto-focus. -/

structure Dom where
  activeElement : Option Nat
deriving DecidableEq

structure FocusCell where
  ref : Option Nat
  isFocused : Bool
deriving DecidableEq

/-- `focus = () => { if (ref.current) { ref.current.focus(); } }`. -/
def FocusCell.focus (c : FocusCell) (d : Dom) : FocusCell × Dom :=
  match c.ref with
  | some e => (c, { d with activeElement := some e })
  | none => (c, d)

/-- `blur = () => { if (ref.current) { ref.current.blur(); } }`; blurring an
element that is not active leaves the document unchanged. -/
def FocusCell.blur (c : FocusCell) (d : Dom) : FocusCell × Dom :=
  match c.ref with
  | some e => if d.activeElement = some e then (c, { d with activeElement := none }) else (c, d)
  | none => (c, d)

/-- The per-render effect: with no attached element it sets `isFocused` to
`false`; with an element it syncs `isFocused` with `document.activeElement`
and, when `autoFocus` is requested and the element is not already focused,
focuses it (the focus listener then reports `isFocused = true`). -/
def FocusCell.runEffect (c : FocusCell) (d : Dom) (autoFocus : Bool) : FocusCell × Dom :=
  match c.ref with
  | none => ({ c with isFocused := false }, d)
  | some e =>
    let isCurrentlyFocused := decide (d.activeElement = some e)
    if autoFocus && !isCurrentlyFocused then
      ({ c with isFocused := true }, { d with activeElement := some e })
    else
      ({ c with isFocused := isCurrentlyFocused }, d)

/-- C9: with no attached element, `focus()` and `blur()` are total no-ops
(cell and document unchanged, hence nothing thrown), and the render effect
reports `isFocused = false` without touching the document. -/
theorem useFocus_null_ref_safe (c : FocusCell) (d : Dom) (autoFocus : Bool)
    (h : c.ref = none) :
    c.focus d = (c, d) ∧ c.blur d = (c, d) ∧
      (c.runEffect d autoFocus).1.isFocused = false ∧
      (c.runEffect d autoFocus).2 = d := by
  refine ⟨?_, ?_, ?_, ?_⟩ <;> simp [FocusCell.focus, FocusCell.blur, FocusCell.runEffect, h]

/-- Witness for C9: a freshly rendered hook with a `null` ref. -/
theorem useFocus_null_ref_safe_witness :
    FocusCell.focus { ref := none, isFocused := false } { activeElement := none } =
        ({ ref := none, isFocused := false }, { activeElement := none }) ∧
      FocusCell.blur { ref := none, isFocused := false } { activeElement := none } =
        ({ ref := none, isFocused := false }, { activeElement := none }) ∧
      (FocusCell.runEffect { ref := none, isFocused := false } { activeElement := none }
          false).1.isFocused = false ∧
      (FocusCell.runEffect { ref := none, isFocused := false } { activeElement := none }
          false).2 = { activeElement := none } :=
  useFocus_null_ref_safe { ref := none, isFocused := false } { activeElement := none } false rfl

/-! ## The persistent-storage setter (`useLocalStorage`)

`setValue` resolves a functional update against the previous in-memory value,
updates the in-memory state, then serialises and writes to the store, all
inside one `try`/`catch` whose handler only logs a warning.  The store is a
key/value list; serialisation (`JSON.stringify`) and the store write
(`localStorage.setItem`) are the two fallible steps, embedded as
caller-supplied `Except`-returning operations.  `setValue` itself is total:
every failure is caught and surfaces only as `warned = true`. -/

inductive SetValue (T : Type) where
  | val : T → SetValue T
  | fn : (T → T) → SetValue T

/-- `value instanceof Function ? value(storedValue) : value`. -/
def SetValue.resolve : SetValue T → T → T
  | SetValue.val v, _ => v
  | SetValue.fn f, prev => f prev

structure SetValueResult (T : Type) where
  storedValue : T
  storage : List (String × String)
  warned : Bool

/-- The body of `setValue` from `useLocalStorage.ts`: the in-memory update
(`setStoredValue valueToStore`) happens before serialisation and the store
write are attempted, and any failure of those is caught. -/
def setValue (key : String) (storedValue : T) (storage : List (String × String))
    (value : SetValue T)
    (stringify : T → Except String String)
    (setItem : List (String × String) → String → String → Except String (List (String × String))) :
    SetValueResult T :=
  let valueToStore := value.resolve storedValue
  match stringify valueToStore with
  | Except.error _ => { storedValue := valueToStore, storage := storage, warned := true }
  | Except.ok s =>
    match setItem storage key s with
    | Except.error _ => { storedValue := valueToStore, storage := storage, warned := true }
    | Except.ok storage2 => { storedValue := valueToStore, storage := storage2, warned := false }

/-- C10: `setValue` always returns (never throws), the in-memory value is the
resolved new value in every branch — including both failure branches, where
the store is left unchanged and the failure is only logged — so the state
update and the store write are not atomic. -/
theorem setValue_total_nonatomic (T : Type) (key : String) (prev : T)
    (storage : List (String × String)) (value : SetValue T)
    (stringify : T → Except String String)
    (setItem : List (String × String) → String → String →
      Except String (List (String × String))) :
    (setValue key prev storage value stringify setItem).storedValue = value.resolve prev ∧
      (∀ e, stringify (value.resolve prev) = Except.error e →
        (setValue key prev storage value stringify setItem).storage = storage ∧
          (setValue key prev storage value stringify setItem).warned = true) ∧
      (∀ s e, stringify (value.resolve prev) = Except.ok s →
        setItem storage key s = Except.error e →
          (setValue key prev storage value stringify setItem).storage = storage ∧
            (setValue key prev storage value stringify setItem).warned = true) := by
  refine ⟨?_, ?_, ?_⟩
  · simp only [setValue]
    cases hst : stringify (value.resolve prev) with
    | error e => simp
    | ok s => cases hw : setItem storage key s <;> simp [hw]
  · intro e he
    simp [setValue, he]
  · intro s e hs hw
    simp [setValue, hs, hw]

/-- Witness for C10: a serialisation failure leaves the store untouched while
the in-memory value has already changed. -/
theorem setValue_total_nonatomic_witness :
    (setValue "k" (0 : Nat) [] (SetValue.val 5)
        (fun _ => Except.error "cyclic") (fun st k v => Except.ok ((k, v) :: st))).storedValue
        = 5 ∧
      (setValue "k" (0 : Nat) [] (SetValue.val 5)
        (fun _ => Except.error "cyclic") (fun st k v => Except.ok ((k, v) :: st))).storage = [] ∧
      (setValue "k" (0 : Nat) [] (SetValue.val 5)
        (fun _ => Except.error "cyclic") (fun st k v => Except.ok ((k, v) :: st))).warned
        = true := by
  have h := setValue_total_nonatomic Nat "k" 0 [] (SetValue.val 5)
    (fun _ => Except.error "cyclic") (fun st k v => Except.ok ((k, v) :: st))
  exact ⟨h.1, (h.2.1 "cyclic" rfl).1, (h.2.1 "cyclic" rfl).2⟩

/-! ## The debounced value cell (`useDebounce`)

The repository ships only the test suite and documentation for this hook;
the implementation module itself is absent, so the cell is modelled from the
spec.  The model keeps the full history of deferred-commit timers so that
the at-most-one-live-timer invariant and the
"a superseded commit never fires" guarantee are provable facts rather than
artifacts of the representation. -/

/-- Modelled from the spec: one deferred-commit request against the platform
timer facility (`scheduleAfter(ms, callback) -> cancelableHandle`), with the
absolute time at which it is due and whether it has been cancelled or has
fired. -/
structure DTimer where
  fireAt : Nat
  cancelled : Bool
  fired : Bool
deriving DecidableEq

/-- A deferred commit is live while it is neither cancelled nor fired. -/
def DTimer.live (tm : DTimer) : Bool :=
  !tm.cancelled && !tm.fired

/-- A live deferred commit that is due at time `t`. -/
def DTimer.dueLive (tm : DTimer) (t : Nat) : Bool :=
  tm.live && decide (tm.fireAt ≤ t)

/-- A freshly scheduled deferred commit due at absolute time `ft`. -/
def DTimer.schedule (ft : Nat) : DTimer :=
  { fireAt := ft, cancelled := false, fired := false }

/-- Modelled from the spec: the debounced value cell, holding `current` (the
latest raw value), `committed` (the debounced value), the configured delay,
and the history of every deferred commit ever scheduled (missing
implementation module of `useDebounce`). -/
structure DebounceCell (T : Type) where
  current : T
  committed : T
  delayMs : Nat
  timers : List DTimer

/-- Modelled from the spec: `create(initialValue, delayMs)`; both `current`
and `committed` start at the initial value and no commit is pending. -/
def DebounceCell.create (v : T) (delayMs : Nat) : DebounceCell T :=
  { current := v, committed := v, delayMs := delayMs, timers := [] }

/-- Cancel every live deferred commit (the cell keeps at most one). -/
def cancelLiveTimers (ts : List DTimer) : List DTimer :=
  ts.map (fun tm => if tm.live then { tm with cancelled := true } else tm)

/-- Modelled from the spec: `set(newValue)` at time `t` records the value as
`current` immediately, cancels any outstanding deferred commit, and
schedules a new one due `delayMs` later. -/
def DebounceCell.set (c : DebounceCell T) (t : Nat) (v : T) : DebounceCell T :=
  { c with current := v,
           timers := DTimer.schedule (t + c.delayMs) :: cancelLiveTimers c.timers }

/-- Modelled from the spec: the event loop reaching time `t` — a live
deferred commit that is due fires, copying `current` into `committed` and
retiring the timer. -/
def DebounceCell.fireDue (c : DebounceCell T) (t : Nat) : DebounceCell T :=
  if c.timers.any (fun tm => tm.dueLive t) then
    { c with committed := c.current,
             timers := c.timers.map
               (fun tm => if tm.dueLive t then { tm with fired := true } else tm) }
  else c

/-- Run a time-stamped sequence of `set` calls, letting any due deferred
commit fire before each call executes. -/
def DebounceCell.runCalls (c : DebounceCell T) : List (Nat × T) → DebounceCell T
  | [] => c
  | (t, v) :: rest => ((c.fireDue t).set t v).runCalls rest

/-- Observe the cell at time `t`: the calls issued by then (the calls list is
kept in issue order) have run, and a due deferred commit has fired. -/
def DebounceCell.observeAt (c : DebounceCell T) (calls : List (Nat × T)) (t : Nat) :
    DebounceCell T :=
  (c.runCalls (calls.takeWhile (fun p => decide (p.1 ≤ t)))).fireDue t

/-- A time-stamped call sequence forming one burst: issued in order, each
call strictly within `delayMs` of the previous one. -/
def BurstChain (delayMs : Nat) : List (Nat × T) → Prop
  | (t1, _) :: (t2, v2) :: rest =>
    t1 ≤ t2 ∧ t2 < t1 + delayMs ∧ BurstChain delayMs ((t2, v2) :: rest)
  | _ => True

/-- Decision procedure for `BurstChain`. -/
def burstChainDecidable (delayMs : Nat) :
    (calls : List (Nat × T)) → Decidable (BurstChain delayMs calls)
  | [] => Decidable.isTrue True.intro
  | [_] => Decidable.isTrue True.intro
  | (t1, _) :: (t2, v2) :: rest =>
    match burstChainDecidable delayMs ((t2, v2) :: rest) with
    | Decidable.isTrue h =>
      if h1 : t1 ≤ t2 then
        if h2 : t2 < t1 + delayMs then Decidable.isTrue ⟨h1, h2, h⟩
        else Decidable.isFalse (fun hc => h2 hc.2.1)
      else Decidable.isFalse (fun hc => h1 hc.1)
    | Decidable.isFalse h => Decidable.isFalse (fun hc => h hc.2.2)

instance (delayMs : Nat) (calls : List (Nat × T)) : Decidable (BurstChain delayMs calls) :=
  burstChainDecidable delayMs calls

/-- The last call of a sequence, with the pre-sequence state as default. -/
def lastCall (p : Nat × T) : List (Nat × T) → Nat × T
  | [] => p
  | q :: rest => lastCall q rest

/-- Every timer in the list is retired (cancelled or fired). -/
def AllDeadTimers (ts : List DTimer) : Prop :=
  ∀ tm ∈ ts, tm.live = false

/-- The invariant of the cell's timer history: at most one live deferred
commit, and no cancelled (superseded) commit ever fired. -/
def TimersInv (ts : List DTimer) : Prop :=
  ts.countP DTimer.live ≤ 1 ∧ ∀ tm ∈ ts, tm.cancelled = true → tm.fired = false

theorem allDead_cancelLiveTimers (ts : List DTimer) : AllDeadTimers (cancelLiveTimers ts) := by
  intro tm hm
  simp only [cancelLiveTimers, List.mem_map] at hm
  obtain ⟨tm0, _, heq⟩ := hm
  by_cases hl : tm0.live = true
  · rw [if_pos hl] at heq
    subst heq
    simp [DTimer.live]
  · rw [if_neg hl] at heq
    subst heq
    exact Bool.not_eq_true _ ▸ hl

theorem fireDue_eq_of_no_due (c : DebounceCell T) (t : Nat)
    (h : ∀ tm ∈ c.timers, tm.live = true → t < tm.fireAt) :
    c.fireDue t = c := by
  have hany : c.timers.any (fun tm => tm.dueLive t) = false := by
    rw [List.any_eq_false]
    intro tm hm
    unfold DTimer.dueLive
    cases hl : tm.live with
    | false => simp
    | true => simp [Nat.not_le.mpr (h tm hm hl)]
  unfold DebounceCell.fireDue
  rw [hany]
  simp

theorem fireDue_empty (c : DebounceCell T) (t : Nat) (h : c.timers = []) :
    c.fireDue t = c :=
  fireDue_eq_of_no_due c t (by rw [h]; intro tm hm; cases hm)

theorem burstChain_le_lastTime {d : Nat} :
    ∀ (rest : List (Nat × T)) (t2 : Nat) (v2 : T),
      BurstChain d ((t2, v2) :: rest) → t2 ≤ (lastCall (t2, v2) rest).1 := by
  intro rest
  induction rest with
  | nil => intro t2 v2 _; exact Nat.le_refl _
  | cons q rest' ih =>
    obtain ⟨t3, v3⟩ := q
    intro t2 v2 hchain
    obtain ⟨h23, _, hchain'⟩ := hchain
    exact Nat.le_trans h23 (ih t3 v3 hchain')

/-- The timer scheduled by the previous `set` dominates a burst tail: running
the calls issued by time `t` neither fires a commit nor changes `committed`,
and afterwards exactly the commit of the last processed call is pending. -/
theorem runCalls_burst_shape (t : Nat) :
    ∀ (calls : List (Nat × T)) (c : DebounceCell T) (pt : Nat),
      BurstChain c.delayMs ((pt, c.current) :: calls) →
      (∃ rest, c.timers = DTimer.schedule (pt + c.delayMs) :: rest ∧ AllDeadTimers rest) →
      ((c.runCalls (calls.takeWhile (fun p => decide (p.1 ≤ t)))).fireDue t).committed =
        if (lastCall (pt, c.current) calls).1 + c.delayMs ≤ t
        then (lastCall (pt, c.current) calls).2
        else c.committed := by
  intro calls
  induction calls with
  | nil =>
    intro c pt _ hts
    obtain ⟨rest, htm, hdead⟩ := hts
    simp only [List.takeWhile, DebounceCell.runCalls, lastCall]
    by_cases hdue : pt + c.delayMs ≤ t
    · have hany : c.timers.any (fun tm => tm.dueLive t) = true := by
        rw [htm]
        simp [DTimer.dueLive, DTimer.live, DTimer.schedule, hdue]
      unfold DebounceCell.fireDue
      rw [hany]
      simp [if_pos hdue]
    · rw [fireDue_eq_of_no_due c t ?_]
      · rw [if_neg hdue]
      · intro tm hm hl
        rw [htm] at hm
        cases hm with
        | head => exact Nat.lt_of_not_le hdue
        | tail _ hm' => exact absurd hl (by simp [hdead tm hm'])
  | cons q rest ih =>
    obtain ⟨t2, v2⟩ := q
    intro c pt hchain hts
    obtain ⟨rest', htm, hdead⟩ := hts
    obtain ⟨h12, h2d, hchain'⟩ := hchain
    by_cases ht2 : t2 ≤ t
    · have htw : ((t2, v2) :: rest).takeWhile (fun p => decide (p.1 ≤ t)) =
          (t2, v2) :: rest.takeWhile (fun p => decide (p.1 ≤ t)) := by
        simp [List.takeWhile_cons, ht2]
      rw [htw]
      show (((((c.fireDue t2).set t2 v2)).runCalls
          (rest.takeWhile (fun p => decide (p.1 ≤ t)))).fireDue t).committed = _
      have hnofire : c.fireDue t2 = c := by
        apply fireDue_eq_of_no_due
        intro tm hm hl
        rw [htm] at hm
        cases hm with
        | head => exact h2d
        | tail _ hm' => exact absurd hl (by simp [hdead tm hm'])
      rw [hnofire]
      have := ih (c.set t2 v2) t2 ?_ ?_
      · rw [this]
        show _ = if (lastCall (pt, c.current) ((t2, v2) :: rest)).1 + c.delayMs ≤ t
          then (lastCall (pt, c.current) ((t2, v2) :: rest)).2 else c.committed
        rfl
      · show BurstChain c.delayMs ((t2, (c.set t2 v2).current) :: rest)
        exact hchain'
      · refine ⟨cancelLiveTimers c.timers, rfl, allDead_cancelLiveTimers c.timers⟩
    · have htw : ((t2, v2) :: rest).takeWhile (fun p => decide (p.1 ≤ t)) = [] := by
        simp [List.takeWhile_cons, ht2]
      rw [htw]
      simp only [DebounceCell.runCalls]
      have hnofire : c.fireDue t = c := by
        apply fireDue_eq_of_no_due
        intro tm hm hl
        rw [htm] at hm
        cases hm with
        | head =>
          show t < pt + c.delayMs
          exact Nat.lt_of_lt_of_le (Nat.lt_of_lt_of_le (Nat.lt_of_not_le ht2)
            (Nat.le_of_lt h2d)) (Nat.le_refl _)
        | tail _ hm' => exact absurd hl (by simp [hdead tm hm'])
      rw [hnofire]
      have hlast : t2 ≤ (lastCall (t2, v2) rest).1 := burstChain_le_lastTime rest t2 v2 hchain'
      rw [if_neg ?_]
      show ¬((lastCall (t2, v2) rest).1 + c.delayMs ≤ t)
      intro hle
      exact absurd (Nat.le_trans (Nat.le_trans hlast (Nat.le_add_right _ _)) hle) ht2

theorem countP_live_cancelLiveTimers (ts : List DTimer) :
    (cancelLiveTimers ts).countP DTimer.live = 0 := by
  rw [List.countP_eq_zero]
  intro tm hm
  have h := allDead_cancelLiveTimers ts tm hm
  simp [h]

theorem timersInv_set (c : DebounceCell T) (t : Nat) (v : T) (h : TimersInv c.timers) :
    TimersInv ((c.set t v).timers) := by
  constructor
  · show (DTimer.schedule (t + c.delayMs) :: cancelLiveTimers c.timers).countP DTimer.live ≤ 1
    rw [List.countP_cons, countP_live_cancelLiveTimers]
    simp [DTimer.schedule, DTimer.live]
  · intro tm hm hc
    have hm2 : tm = DTimer.schedule (t + c.delayMs) ∨ tm ∈ cancelLiveTimers c.timers :=
      List.mem_cons.mp hm
    cases hm2 with
    | inl h1 =>
      subst h1
      simp [DTimer.schedule] at hc
    | inr h2 =>
      obtain ⟨tm0, hmem, heq⟩ := List.mem_map.mp h2
      by_cases hl : tm0.live = true
      · rw [if_pos hl] at heq
        subst heq
        simp only [DTimer.live, Bool.and_eq_true, Bool.not_eq_true'] at hl
        exact hl.2
      · rw [if_neg hl] at heq
        subst heq
        exact h.2 tm0 hmem hc

theorem countP_live_fireMap (t : Nat) (ts : List DTimer) :
    (ts.map (fun tm => if tm.dueLive t then { tm with fired := true } else tm)).countP
        DTimer.live ≤ ts.countP DTimer.live := by
  induction ts with
  | nil => simp
  | cons tm rest ih =>
    by_cases hd : tm.dueLive t = true
    · simp only [List.map_cons, if_pos hd, List.countP_cons]
      have hlf : DTimer.live { tm with fired := true } = false := by simp [DTimer.live]
      rw [hlf]
      simp only [Bool.false_eq_true, if_false, Nat.add_zero]
      exact Nat.le_trans ih (Nat.le_add_right _ _)
    · simp only [List.map_cons, if_neg hd, List.countP_cons]
      exact Nat.add_le_add_right ih _

theorem timersInv_fireDue (c : DebounceCell T) (t : Nat) (h : TimersInv c.timers) :
    TimersInv ((c.fireDue t).timers) := by
  unfold DebounceCell.fireDue
  by_cases hany : c.timers.any (fun tm => tm.dueLive t) = true
  · rw [if_pos hany]
    constructor
    · exact Nat.le_trans (countP_live_fireMap t c.timers) h.1
    · intro tm hm hc
      simp only [List.mem_map] at hm
      obtain ⟨tm0, hmem, heq⟩ := hm
      by_cases hd : tm0.dueLive t = true
      · rw [if_pos hd] at heq
        subst heq
        have hl : tm0.live = true := ((Bool.and_eq_true _ _).mp hd).1
        simp only [DTimer.live, Bool.and_eq_true, Bool.not_eq_true'] at hl
        exact absurd hc (by simp [hl.1])
      · rw [if_neg hd] at heq
        subst heq
        exact h.2 tm0 hmem hc
  · rw [if_neg hany]
    exact h

theorem timersInv_runCalls :
    ∀ (calls : List (Nat × T)) (c : DebounceCell T),
      TimersInv c.timers → TimersInv ((c.runCalls calls).timers) := by
  intro calls
  induction calls with
  | nil => intro c h; exact h
  | cons q rest ih =>
    obtain ⟨t1, v1⟩ := q
    intro c h
    exact ih _ (timersInv_set _ t1 v1 (timersInv_fireDue c t1 h))

/-- C3: in every state reachable from a fresh cell by any sequence of `set`
calls and timer deliveries, at most one deferred commit is live, and no
superseded (cancelled) commit ever fires. -/
theorem debounce_at_most_one_pending {T : Type} (v0 : T) (delayMs : Nat)
    (calls : List (Nat × T)) (t : Nat) :
    TimersInv ((((DebounceCell.create v0 delayMs).runCalls calls).fireDue t).timers) :=
  timersInv_fireDue _ t
    (timersInv_runCalls calls _
      ⟨by show ([] : List DTimer).countP DTimer.live ≤ 1; decide,
        by intro tm hm; cases hm⟩)

/-- Witness for C3 at a concrete two-call burst. -/
theorem debounce_at_most_one_pending_witness :
    TimersInv ((((DebounceCell.create (0 : Nat) 300).runCalls
        [(0, 1), (100, 2)]).fireDue 500).timers) :=
  debounce_at_most_one_pending 0 300 [(0, 1), (100, 2)] 500

/-- C2: after any `set` call — the last of an arbitrary time-stamped call
sequence, from an arbitrary cell state — the raw `current` value equals the
value just set, synchronously, regardless of timer state. -/
theorem debounce_current_immediate {T : Type} (c : DebounceCell T)
    (calls : List (Nat × T)) (t : Nat) (v : T) :
    (c.runCalls (calls ++ [(t, v)])).current = v := by
  induction calls generalizing c with
  | nil => rfl
  | cons q rest ih =>
    obtain ⟨t1, v1⟩ := q
    exact ih ((c.fireDue t1).set t1 v1)

/-- C1: for a burst of calls each issued strictly within `delayMs` of the
previous one, the committed value observed at any time `t` is still the
pre-burst value before `delayMs` has elapsed after the last call, and is the
last call's value from that moment on — it never equals any earlier value of
the burst. -/
theorem debounce_burst_commits_once {T : Type} (v0 : T) (delayMs : Nat)
    (calls : List (Nat × T)) (t : Nat)
    (hne : calls ≠ []) (hchain : BurstChain delayMs calls) :
    ((DebounceCell.create v0 delayMs).observeAt calls t).committed =
      if (lastCall (0, v0) calls).1 + delayMs ≤ t
      then (lastCall (0, v0) calls).2 else v0 := by
  match calls, hne with
  | (t1, v1) :: rest, _ =>
    unfold DebounceCell.observeAt
    obtain ⟨hchain1, hchain2⟩ : True ∧ BurstChain delayMs ((t1, v1) :: rest) := ⟨trivial, hchain⟩
    by_cases ht1 : t1 ≤ t
    · have htw : ((t1, v1) :: rest).takeWhile (fun p => decide (p.1 ≤ t)) =
          (t1, v1) :: rest.takeWhile (fun p => decide (p.1 ≤ t)) := by
        simp [List.takeWhile_cons, ht1]
      rw [htw]
      show (((((DebounceCell.create v0 delayMs).fireDue t1).set t1 v1).runCalls
          (rest.takeWhile (fun p => decide (p.1 ≤ t)))).fireDue t).committed = _
      rw [fireDue_empty _ t1 rfl]
      have h := runCalls_burst_shape t rest ((DebounceCell.create v0 delayMs).set t1 v1) t1
        hchain2 ⟨[], rfl, by intro tm hm; cases hm⟩
      exact h
    · have htw : ((t1, v1) :: rest).takeWhile (fun p => decide (p.1 ≤ t)) = [] := by
        simp [List.takeWhile_cons, ht1]
      rw [htw]
      show (((DebounceCell.create v0 delayMs).runCalls []).fireDue t).committed = _
      rw [show (DebounceCell.create v0 delayMs).runCalls ([] : List (Nat × T)) =
        DebounceCell.create v0 delayMs from rfl]
      rw [fireDue_empty _ t rfl]
      have hlast : t1 ≤ (lastCall (t1, v1) rest).1 :=
        burstChain_le_lastTime rest t1 v1 hchain2
      rw [if_neg ?_]
      · rfl
      · show ¬((lastCall (t1, v1) rest).1 + delayMs ≤ t)
        intro hle
        exact ht1 (Nat.le_trans (Nat.le_trans hlast (Nat.le_add_right _ _)) hle)

/-- Witness for C1: the test suite's rapid-successive-updates burst with
`delayMs = 300` — three calls 100 ms apart, observed 300 ms after the last. -/
theorem debounce_burst_commits_once_witness :
    ((DebounceCell.create (1 : Nat) 300).observeAt [(0, 10), (100, 20), (200, 30)] 500).committed
      = 30 := by
  have h := debounce_burst_commits_once (1 : Nat) 300 [(0, 10), (100, 20), (200, 30)] 500
    (by decide) (by decide)
  simpa using h

end BymeisamUse
